import Mathlib

/-!
# Verification of the sandboxed execution and test-assertion engine

This file embeds the core of the ai-coding-tutor repository in Lean 4 and
proves the spec's claims about it.

The execution sandbox (`sandbox.ts`, exporting `executeCode`) and the
orchestrator hook (`useCodeRunner`) are exercised by the repository's tests
and callers but their implementation files are not present in the source
tree; those parts are modelled from the spec (sections 3, 4.1 to 4.4, 5 and
7), faithful to its words, and checked against the behaviour pinned down by
the repository's own test suite (`sandbox.test.ts`).  The tutor-side hooks
`useTutorContext` and `useExerciseAttempts` are present in the source tree
and are embedded directly from their code.
-/

/-- Join a list of strings with a separator, in order, mirroring the
`Array.prototype.join` semantics used throughout the code
(`lines.join("\n")`, `args.join(" ")`, element join with `","`). -/
def joinSep (sep : String) : List String → String
  | [] => ""
  | [x] => x
  | x :: y :: rest => x ++ sep ++ joinSep sep (y :: rest)

/-- Modelled from the spec: the runtime values a single output-producing
call can receive (spec section 4.1, Output Normalizer).  `sandbox.ts` is not
in the source tree; the constructors cover the value shapes the spec and the
test suite pin down: strings, numbers, booleans, `null`, `undefined`,
arrays, and plain non-array objects (which the spec says are never
deep-serialized, so a single opaque constructor suffices). -/
inductive Value where
  | str (s : String)
  | num (n : Int)
  | bool (b : Bool)
  | null
  | undef
  | arr (elems : List Value)
  | obj
deriving Repr

mutual

/-- Modelled from the spec: convert one runtime value into text (spec
section 4.1): `undefined` and `null` render literally, booleans as
`true`/`false`, plain objects as the fixed literal `[object Object]`,
arrays as their elements joined with `,` and no spaces. -/
def normalizeValue : Value → String
  | .str s => s
  | .num n => toString n
  | .bool b => if b then "true" else "false"
  | .null => "null"
  | .undef => "undefined"
  | .arr es => normalizeList es
  | .obj => "[object Object]"

/-- Array elements rendered and joined with `,` and no spaces. -/
def normalizeList : List Value → String
  | [] => ""
  | [v] => normalizeValue v
  | v :: w :: rest => normalizeValue v ++ "," ++ normalizeList (w :: rest)

end

/-- Modelled from the spec: the three output channels a call can be tagged
with (spec section 4.1): informational, error-level, warning-level. -/
inductive Channel where
  | info
  | error
  | warn
deriving Repr, DecidableEq

/-- The literal channel tag put in front of a captured line: `Error: ` for
an error-level call, `Warning: ` for a warning-level call, nothing for an
informational call. -/
def channelTag : Channel → String
  | .info => ""
  | .error => "Error: "
  | .warn => "Warning: "

/-- Multiple arguments to one output call are joined with a single space,
in argument order, each normalized first. -/
def joinArgs (args : List Value) : String :=
  joinSep " " (args.map normalizeValue)

/-- One captured line: the channel tag followed by the joined argument
text. -/
def formatLine (ch : Channel) (args : List Value) : String :=
  channelTag ch ++ joinArgs args

/-- Modelled from the spec: the observable events of one execution of
learner code (spec sections 4.2 and 7).  The sandbox intercepts
output-producing calls on the three channels; execution can throw an
error-like object carrying a message, or throw a non-error value. -/
inductive Step where
  | out (ch : Channel) (args : List Value)
  | throwErr (msg : String)
  | throwVal (v : Value)
deriving Repr

/-- True exactly on output-producing steps. -/
def Step.isOut : Step → Bool
  | .out _ _ => true
  | _ => false

/-- The captured line an output step produces (dummy on throw steps). -/
def Step.line : Step → String
  | .out ch args => formatLine ch args
  | _ => ""

/-- The error text a throw step reports: the message of an error-like
object, or the normalized text of a non-error thrown value (dummy on
output steps). -/
def Step.throwText : Step → String
  | .out _ _ => ""
  | .throwErr msg => msg
  | .throwVal v => normalizeValue v

/-- Modelled from the spec: a learner submission as the sandbox sees it
(spec sections 4.2 and 7): either it fails to parse (syntax failure, with
the host error message) or it executes as an ordered sequence of observable
steps. -/
inductive Source where
  | parseFail (msg : String)
  | prog (steps : List Step)

/-- An expectation rule `{ name, expectedOutput }` as supplied by the
exercise definition (called `TestCase` in the repository's types). -/
structure TestCase where
  name : String
  expectedOutput : String
deriving Repr, DecidableEq

/-- A per-rule result `{ name, passed, expected, actual }` (called a test
result in the repository; field names match the test suite's accesses). -/
structure TestResult where
  name : String
  passed : Bool
  expected : String
  actual : String
deriving Repr, DecidableEq

/-- The sandbox's raw result: captured text plus the error message, if an
exception escaped the run (spec section 3, ExecutionOutcome). -/
structure ExecutionOutcome where
  capturedText : String
  errorMessage : Option String
deriving Repr, DecidableEq

/-- The public contract `{ output, error, testResults, allPassed }` (spec
section 3, ExecutionResult). -/
structure ExecutionResult where
  output : String
  error : Option String
  testResults : List TestResult
  allPassed : Bool
deriving Repr, DecidableEq

/-- Run the steps in order, collecting one captured line per output call,
stopping at the first throw; returns the lines captured before the throw
and the error text, if any (spec section 4.2: capture is append-only and
survives a later throw). -/
def runSteps : List Step → List String × Option String
  | [] => ([], none)
  | .out ch args :: rest =>
      ((formatLine ch args) :: (runSteps rest).1, (runSteps rest).2)
  | .throwErr msg :: _ => ([], some msg)
  | .throwVal v :: _ => ([], some (normalizeValue v))

/-- Modelled from the spec: the execution sandbox (spec section 4.2).  A
syntax failure is reported through the same error message field as a
runtime exception; otherwise the captured lines are joined with a newline
character, in call order. -/
def runSandbox : Source → ExecutionOutcome
  | .parseFail msg => { capturedText := "", errorMessage := some msg }
  | .prog steps =>
      { capturedText := joinSep "\n" (runSteps steps).1
        errorMessage := (runSteps steps).2 }

/-- True when `needle` occurs at the start of `hay`. -/
def listStartsWith : List Char → List Char → Bool
  | [], _ => true
  | _ :: _, [] => false
  | a :: as, b :: bs => a == b && listStartsWith as bs

/-- True when `needle` occurs contiguously anywhere in `hay`. -/
def listContains (needle : List Char) : List Char → Bool
  | [] => listStartsWith needle []
  | b :: bs => listStartsWith needle (b :: bs) || listContains needle bs

/-- Substring containment `hay.includes(needle)` of the host language. -/
def strIncludes (hay needle : String) : Bool :=
  listContains needle.data hay.data

/-- Modelled from the spec: the test assertion evaluator for one rule (spec
section 4.3): a rule passes iff the run produced no error and the captured
text contains the expected substring; on error every rule is forced to
`passed := false` regardless of content. -/
def evaluateTest (capturedText : String) (errorMessage : Option String)
    (tc : TestCase) : TestResult :=
  { name := tc.name
    passed := (errorMessage == none) && strIncludes capturedText tc.expectedOutput
    expected := tc.expectedOutput
    actual := capturedText }

/-- Compose the public result from the sandbox outcome and the evaluated
rules (spec section 3): `allPassed` is `(error === null) &&
testResults.every(passed)`. -/
def composeResult (outcome : ExecutionOutcome) (tcs : List TestCase) :
    ExecutionResult :=
  { output := outcome.capturedText
    error := outcome.errorMessage
    testResults := tcs.map (evaluateTest outcome.capturedText outcome.errorMessage)
    allPassed := (outcome.errorMessage == none)
      && (tcs.map (evaluateTest outcome.capturedText outcome.errorMessage)).all
          (fun t => t.passed) }

/-- Modelled from the spec: `executeCode(sourceText, expectations)`, the
single request/response contract of the core (spec section 6). -/
def executeCode (src : Source) (tcs : List TestCase) : ExecutionResult :=
  composeResult (runSandbox src) tcs

/-- A buffer-threading variant of `runSteps`: lines are appended to an
explicit capture buffer, as the sandbox's mutable buffer does. -/
def runCapture (buffer : List String) : List Step → List String × Option String
  | [] => (buffer, none)
  | .out ch args :: rest => runCapture (buffer ++ [formatLine ch args]) rest
  | .throwErr msg :: _ => (buffer, some msg)
  | .throwVal v :: _ => (buffer, some (normalizeValue v))

/-- The host-side mutable state a run could in principle leak into the next
run: the capture buffer left behind by the previous execution. -/
structure SandboxHost where
  captureBuffer : List String
deriving Repr, DecidableEq

/-- Modelled from the spec: one `run()` against a host carrying whatever
capture buffer the previous run left behind (spec section 5): each run gets
a fresh capture buffer and fresh bindings, so the incoming buffer is
discarded, never read. -/
def executeCodeFrom (host : SandboxHost) (src : Source) (tcs : List TestCase) :
    ExecutionResult × SandboxHost :=
  match host, src with
  | _, .parseFail msg => (composeResult ⟨"", some msg⟩ tcs, ⟨[]⟩)
  | _, .prog steps =>
      (composeResult ⟨joinSep "\n" (runCapture [] steps).1, (runCapture [] steps).2⟩ tcs,
        ⟨(runCapture [] steps).1⟩)

/-- The orchestrator's lifecycle phases (spec section 4.4): idle, running,
settled. -/
inductive Phase where
  | idle
  | running
  | settled
deriving Repr, DecidableEq

/-- The orchestrator state: its phase plus the number of sandbox executions
currently in progress (to express non-interleaving). -/
structure RunnerState where
  phase : Phase
  activeRuns : Nat
deriving Repr, DecidableEq

/-- The events the UI and the async run can deliver to the orchestrator. -/
inductive RunnerEvent where
  | clickRun
  | finish
  | clickReset

/-- The orchestrator starts idle with no execution in progress. -/
def runnerInit : RunnerState := { phase := .idle, activeRuns := 0 }

/-- Modelled from the spec: the run lifecycle of the orchestrator hook
`useCodeRunner`, whose implementation file is not in the source tree (spec
sections 4.4 and 5), combined with its caller EditorPanel, which is in the
source tree and disables both the Run and the Reset buttons while
`running`: a run request while already running is rejected and starts
nothing; a completed run settles; reset returns to idle. -/
def stepRunner (s : RunnerState) : RunnerEvent → RunnerState
  | .clickRun =>
      if s.phase = .running then s
      else { phase := .running, activeRuns := s.activeRuns + 1 }
  | .finish =>
      if s.phase = .running then { phase := .settled, activeRuns := s.activeRuns - 1 }
      else s
  | .clickReset =>
      if s.phase = .running then s
      else { phase := .idle, activeRuns := s.activeRuns }

/-- The orchestrator states reachable from the initial idle state. -/
inductive RunnerReachable : RunnerState → Prop where
  | init : RunnerReachable runnerInit
  | step {s : RunnerState} (h : RunnerReachable s) (e : RunnerEvent) :
      RunnerReachable (stepRunner s e)

/-- The per-failing-test fragment built by useTutorContext.ts line 45:
`` `${t.name}: expected "${t.expected}", got "${t.actual}"` ``. -/
def failingEntry (t : TestResult) : String :=
  t.name ++ ": expected \"" ++ t.expected ++ "\", got \"" ++ t.actual ++ "\""

/-- Embedded from useTutorContext.ts lines 39 to 48: the test-results
summary put into the tutor context.  A JS template-literal conditional
`` failing ? `. Failing: ${failing}` : mt `` keys on string truthiness,
that is on `failing` being non-empty. -/
def testResultsSummary (lastResult : Option ExecutionResult) : Option String :=
  match lastResult with
  | none => none
  | some r =>
      if r.testResults.length > 0 then
        some (toString (r.testResults.filter (fun t => t.passed)).length ++ "/" ++
          toString r.testResults.length ++ " passed" ++
          (if joinSep "; " ((r.testResults.filter (fun t => !t.passed)).map failingEntry) ≠ ""
           then ". Failing: " ++
             joinSep "; " ((r.testResults.filter (fun t => !t.passed)).map failingEntry)
           else ""))
      else none

/-- Embedded from useExerciseAttempts.ts line 5: show the help prompt after
3 consecutive failures. -/
def FAILURE_THRESHOLD : Nat := 3

/-- The AttemptState shape from the tutor types (types/index.ts lines 66 to
74). -/
structure AttemptState where
  attemptCount : Nat
  consecutiveFailures : Nat
  lastError : Option String
  lastCode : Option String
  lastResult : Option ExecutionResult
  shouldPromptHelp : Bool
  hintLevel : Nat
deriving Repr, DecidableEq

/-- Embedded from useExerciseAttempts.ts lines 7 to 15: the initial
state. -/
def attemptInitialState : AttemptState :=
  { attemptCount := 0
    consecutiveFailures := 0
    lastError := none
    lastCode := none
    lastResult := none
    shouldPromptHelp := false
    hintLevel := 0 }

/-- Embedded from useExerciseAttempts.ts lines 20 to 42: `recordAttempt`
increments the attempt count, increments the consecutive-failure count on a
failed result and resets it to zero on a passing one, and raises the help
prompt when the new consecutive-failure count reaches the threshold and the
prompt was not already raised. -/
def recordAttempt (code : String) (result : ExecutionResult)
    (prev : AttemptState) : AttemptState :=
  let isFailure := !result.allPassed
  let newConsecutiveFailures := if isFailure then prev.consecutiveFailures + 1 else 0
  { attemptCount := prev.attemptCount + 1
    consecutiveFailures := newConsecutiveFailures
    lastError := result.error
    lastCode := some code
    lastResult := some result
    shouldPromptHelp :=
      decide (newConsecutiveFailures ≥ FAILURE_THRESHOLD) && !prev.shouldPromptHelp
    hintLevel := prev.hintLevel }

/-- Embedded from useExerciseAttempts.ts lines 44 to 49. -/
def dismissPrompt (s : AttemptState) : AttemptState :=
  { s with shouldPromptHelp := false }

/-- Embedded from useExerciseAttempts.ts lines 51 to 56. -/
def incrementHintLevel (s : AttemptState) : AttemptState :=
  { s with hintLevel := s.hintLevel + 1 }

/-- Embedded from useExerciseAttempts.ts lines 58 to 60. -/
def resetAttempts (_ : AttemptState) : AttemptState :=
  attemptInitialState

/-- The operations the hook exposes that change the attempt state. -/
inductive AttemptEvent where
  | record (code : String) (result : ExecutionResult)
  | dismiss
  | incHint
  | reset

/-- One state transition of the hook. -/
def stepAttempt (s : AttemptState) : AttemptEvent → AttemptState
  | .record code result => recordAttempt code result s
  | .dismiss => dismissPrompt s
  | .incHint => incrementHintLevel s
  | .reset => resetAttempts s

/-- The attempt states reachable from the initial state through the hook's
operations. -/
inductive AttemptReachable : AttemptState → Prop where
  | init : AttemptReachable attemptInitialState
  | step {s : AttemptState} (h : AttemptReachable s) (e : AttemptEvent) :
      AttemptReachable (stepAttempt s e)

/-! ## Theorems -/

example :
    executeCode (.prog [.out .info [.str "Hello, World!"]]) [] =
      { output := "Hello, World!", error := none, testResults := [], allPassed := true } := by
  decide

example :
    (executeCode (.prog [.out .info [.str "Line 1"], .out .info [.str "Line 2"],
      .out .info [.str "Line 3"]]) []).output = "Line 1\nLine 2\nLine 3" := by
  decide

example :
    (executeCode (.prog [.out .error [.str "Something went wrong"]]) []).output =
      "Error: Something went wrong" := by
  decide

example :
    (executeCode (.prog [.out .info [.str "Count:", .num 42, .str "items"]]) []).output =
      "Count: 42 items" := by
  decide

example :
    executeCode (.prog [.out .info [.str "Before error"], .throwErr "Test error"]) [] =
      { output := "Before error", error := some "Test error", testResults := [],
        allPassed := false } := by
  decide

example :
    (executeCode (.prog [.out .info [.str "Hello"]])
      [{ name := "prints hello", expectedOutput := "Hello" }]).allPassed = true := by
  decide

example :
    (executeCode (.prog [.out .info [.str "foo bar"]])
      [{ name := "contains foo", expectedOutput := "foo" },
       { name := "contains bar", expectedOutput := "bar" },
       { name := "contains baz", expectedOutput := "baz" }]).testResults.map
         (fun t => t.passed) = [true, true, false] := by
  decide

example :
    (executeCode (.prog [.out .info [.arr [.num 1, .num 2, .num 3]]]) []).output =
      "1,2,3" := by
  decide

example :
    (executeCode (.prog [.out .info [.obj]]) []).output = "[object Object]" := by
  decide

/-! ## Helper lemmas -/

theorem listContains_nil (l : List Char) : listContains [] l = true := by
  cases l with
  | nil => rfl
  | cons b bs => simp [listContains, listStartsWith]

theorem strIncludes_empty (s : String) : strIncludes s "" = true := by
  have h : ("" : String).data = [] := rfl
  simp [strIncludes, h, listContains_nil]

theorem runSteps_all_out (steps : List Step) (h : ∀ s ∈ steps, s.isOut = true) :
    runSteps steps = (steps.map Step.line, none) := by
  induction steps with
  | nil => rfl
  | cons s rest ih =>
      cases s with
      | out ch args =>
          simp [runSteps, Step.line, ih (fun t ht => h t (List.mem_cons_of_mem _ ht))]
      | throwErr m =>
          have hs := h _ (List.mem_cons_self _ _)
          simp [Step.isOut] at hs
      | throwVal v =>
          have hs := h _ (List.mem_cons_self _ _)
          simp [Step.isOut] at hs

theorem runSteps_append_out (pre tail : List Step) (h : ∀ s ∈ pre, s.isOut = true) :
    runSteps (pre ++ tail) =
      (pre.map Step.line ++ (runSteps tail).1, (runSteps tail).2) := by
  induction pre with
  | nil => simp
  | cons s rest ih =>
      cases s with
      | out ch args =>
          simp [runSteps, Step.line, ih (fun t ht => h t (List.mem_cons_of_mem _ ht))]
      | throwErr m =>
          have hs := h _ (List.mem_cons_self _ _)
          simp [Step.isOut] at hs
      | throwVal v =>
          have hs := h _ (List.mem_cons_self _ _)
          simp [Step.isOut] at hs

theorem runSteps_none_iff (steps : List Step) :
    (runSteps steps).2 = none ↔ ∀ s ∈ steps, s.isOut = true := by
  induction steps with
  | nil => simp [runSteps]
  | cons s rest ih =>
      cases s with
      | out ch args => simp [runSteps, Step.isOut, List.forall_mem_cons, ih]
      | throwErr m => simp [runSteps, Step.isOut, List.forall_mem_cons]
      | throwVal v => simp [runSteps, Step.isOut, List.forall_mem_cons]

theorem normalizeList_eq_joinSep :
    (es : List Value) → normalizeList es = joinSep "," (es.map normalizeValue)
  | [] => rfl
  | [v] => rfl
  | v :: w :: rest => by
      have ih := normalizeList_eq_joinSep (w :: rest)
      simp only [normalizeList, List.map, joinSep] at ih ⊢
      rw [ih]

theorem runCapture_eq (steps : List Step) : ∀ buffer : List String,
    runCapture buffer steps = (buffer ++ (runSteps steps).1, (runSteps steps).2) := by
  induction steps with
  | nil => intro buffer; simp [runCapture, runSteps]
  | cons s rest ih =>
      intro buffer
      cases s with
      | out ch args => simp [runCapture, runSteps, ih]
      | throwErr m => simp [runCapture, runSteps]
      | throwVal v => simp [runCapture, runSteps]

/-- C1: for every ExecutionResult returned by executeCode, `allPassed` is
true iff `error` is null and every entry of `testResults` has
`passed = true`; whenever `error` is non-null every `testResults[i].passed`
is false regardless of expectation content; and when `testResults` is empty
`allPassed` equals `error === null`. -/
theorem c1_allPassed_invariant (src : Source) (tcs : List TestCase) :
    ((executeCode src tcs).allPassed = true ↔
      ((executeCode src tcs).error = none ∧
        ∀ t ∈ (executeCode src tcs).testResults, t.passed = true))
    ∧ ((executeCode src tcs).error ≠ none →
        ∀ t ∈ (executeCode src tcs).testResults, t.passed = false)
    ∧ ((executeCode src tcs).testResults = [] →
        ((executeCode src tcs).allPassed = true ↔ (executeCode src tcs).error = none)) := by
  refine ⟨?_, ?_, ?_⟩
  · simp only [executeCode, composeResult, evaluateTest, Bool.and_eq_true, beq_iff_eq,
      List.all_eq_true, List.mem_map, List.forall_mem_map]
  · intro herr t ht
    simp only [executeCode, composeResult, List.mem_map] at ht herr
    obtain ⟨tc, htc, rfl⟩ := ht
    simp only [evaluateTest]
    rcases h : (runSandbox src).errorMessage with _ | a
    · exact absurd h herr
    · simp [h]
  · intro hnil
    simp only [executeCode, composeResult] at hnil ⊢
    rw [List.map_eq_nil_iff] at hnil
    simp [hnil]

/-- C1 witness: a crashing program with one expectation has a non-null
error and every test result failed. -/
theorem c1_allPassed_invariant_witness :
    (executeCode (Source.prog [Step.throwErr "crash"])
        [{ name := "t1", expectedOutput := "anything" }]).error ≠ none
    ∧ ∀ t ∈ (executeCode (Source.prog [Step.throwErr "crash"])
        [{ name := "t1", expectedOutput := "anything" }]).testResults, t.passed = false :=
  ⟨by decide,
    (c1_allPassed_invariant (Source.prog [Step.throwErr "crash"])
      [{ name := "t1", expectedOutput := "anything" }]).2.1 (by decide)⟩

/-- C2: when execution throws after some output-producing calls, the
returned output is exactly the newline-join of the lines captured before
the throw, the error is the throw's text, allPassed is false; and error is
null iff no exception escaped the run (all steps are output steps). -/
theorem c2_partial_output (pre rest : List Step) (thr : Step) (tcs : List TestCase)
    (hpre : ∀ s ∈ pre, s.isOut = true) (hthr : thr.isOut = false) :
    ((executeCode (.prog (pre ++ thr :: rest)) tcs).output
        = joinSep "\n" (pre.map Step.line))
    ∧ ((executeCode (.prog (pre ++ thr :: rest)) tcs).error = some thr.throwText)
    ∧ ((executeCode (.prog (pre ++ thr :: rest)) tcs).allPassed = false)
    ∧ (∀ steps, (executeCode (.prog steps) tcs).error = none ↔
        ∀ s ∈ steps, s.isOut = true) := by
  have hrun := runSteps_append_out pre (thr :: rest) hpre
  have hthr2 : runSteps (thr :: rest) = ([], some thr.throwText) := by
    cases thr with
    | out ch args => simp [Step.isOut] at hthr
    | throwErr m => simp [runSteps, Step.throwText]
    | throwVal v => simp [runSteps, Step.throwText]
  refine ⟨?_, ?_, ?_, ?_⟩
  · simp [executeCode, composeResult, runSandbox, hrun, hthr2]
  · simp [executeCode, composeResult, runSandbox, hrun, hthr2]
  · simp [executeCode, composeResult, runSandbox, hrun, hthr2]
  · intro steps
    simpa [executeCode, composeResult, runSandbox] using runSteps_none_iff steps

/-- C2 witness: logging `Before error` then throwing `new Error("Test
error")` yields output `Before error`, error `Test error`, allPassed
false. -/
theorem c2_partial_output_witness :
    ((executeCode (.prog [Step.out .info [.str "Before error"],
        Step.throwErr "Test error"]) []).output = "Before error")
    ∧ ((executeCode (.prog [Step.out .info [.str "Before error"],
        Step.throwErr "Test error"]) []).error = some "Test error")
    ∧ ((executeCode (.prog [Step.out .info [.str "Before error"],
        Step.throwErr "Test error"]) []).allPassed = false) := by
  have h := c2_partial_output [Step.out .info [.str "Before error"]] []
    (Step.throwErr "Test error") [] (by decide) (by decide)
  exact ⟨h.1.trans (by decide), h.2.1.trans (by decide), h.2.2.1⟩

/-- C3: on an error-free run every rule passes iff the captured output
contains the rule's expected substring (substring containment, not
equality); a rule whose expected substring is empty always passes. -/
theorem c3_substring_matching (src : Source) (tcs : List TestCase)
    (h : (executeCode src tcs).error = none) :
    (∀ t ∈ (executeCode src tcs).testResults,
        t.passed = strIncludes (executeCode src tcs).output t.expected)
    ∧ (∀ t ∈ (executeCode src tcs).testResults,
        t.expected = "" → t.passed = true) := by
  simp only [executeCode, composeResult] at h ⊢
  constructor
  · intro t ht
    obtain ⟨tc, htc, rfl⟩ := List.mem_map.mp ht
    simp [evaluateTest, h]
  · intro t ht he
    obtain ⟨tc, htc, rfl⟩ := List.mem_map.mp ht
    simp only [evaluateTest] at he ⊢
    simp [h, he, strIncludes_empty]

/-- C3 witness: expectation `middle` against output `start middle end`
passes by containment, and an empty expectation passes. -/
theorem c3_substring_matching_witness :
    (∀ t ∈ (executeCode (.prog [Step.out .info [.str "start middle end"]])
        [{ name := "contains partial", expectedOutput := "middle" },
         { name := "empty expectation", expectedOutput := "" }]).testResults,
      t.passed = strIncludes (executeCode (.prog [Step.out .info [.str "start middle end"]])
        [{ name := "contains partial", expectedOutput := "middle" },
         { name := "empty expectation", expectedOutput := "" }]).output t.expected)
    ∧ (∀ t ∈ (executeCode (.prog [Step.out .info [.str "start middle end"]])
        [{ name := "contains partial", expectedOutput := "middle" },
         { name := "empty expectation", expectedOutput := "" }]).testResults,
      t.expected = "" → t.passed = true) :=
  c3_substring_matching (.prog [Step.out .info [.str "start middle end"]])
    [{ name := "contains partial", expectedOutput := "middle" },
     { name := "empty expectation", expectedOutput := "" }] (by decide)

/-- C4: executeCode always returns a result; a thrown error-like value
appears as its message text in the error field, a thrown non-error value as
its normalized text (so `throw "string error"` gives error `string error`),
and a syntax failure is reported through the same error field. -/
theorem c4_error_reporting (pre rest : List Step) (m : String) (v : Value)
    (tcs : List TestCase) (hpre : ∀ s ∈ pre, s.isOut = true) :
    ((executeCode (.prog (pre ++ Step.throwErr m :: rest)) tcs).error = some m)
    ∧ ((executeCode (.prog (pre ++ Step.throwVal v :: rest)) tcs).error
        = some (normalizeValue v))
    ∧ ((executeCode (.prog [Step.throwVal (.str "string error")]) tcs).error
        = some "string error")
    ∧ ((executeCode (.parseFail m) tcs).error = some m) := by
  have h1 := runSteps_append_out pre (Step.throwErr m :: rest) hpre
  have h2 := runSteps_append_out pre (Step.throwVal v :: rest) hpre
  refine ⟨?_, ?_, ?_, ?_⟩
  · simp [executeCode, composeResult, runSandbox, h1, runSteps]
  · simp [executeCode, composeResult, runSandbox, h2, runSteps]
  · simp [executeCode, composeResult, runSandbox, runSteps, normalizeValue]
  · simp [executeCode, composeResult, runSandbox]

/-- C4 witness: the three error paths at concrete inputs. -/
theorem c4_error_reporting_witness :
    ((executeCode (.prog [Step.throwErr "boom"]) []).error = some "boom")
    ∧ ((executeCode (.prog [Step.throwVal (.num 7)]) []).error
        = some (normalizeValue (.num 7)))
    ∧ ((executeCode (.prog [Step.throwVal (.str "string error")]) []).error
        = some "string error")
    ∧ ((executeCode (.parseFail "boom") []).error = some "boom") :=
  c4_error_reporting [] [] "boom" (.num 7) [] (by decide)

/-- C5: for a run made only of output-producing calls, the output equals
the newline-join, in call order, of the per-call lines, each line being the
channel tag (`Error: `, `Warning: `, or nothing) followed by the joined
argument text, and no error is reported. -/
theorem c5_output_assembly (calls : List (Channel × List Value)) (tcs : List TestCase) :
    ((executeCode (.prog (calls.map (fun c => Step.out c.1 c.2))) tcs).output
        = joinSep "\n" (calls.map (fun c => channelTag c.1 ++ joinArgs c.2)))
    ∧ ((executeCode (.prog (calls.map (fun c => Step.out c.1 c.2))) tcs).error = none) := by
  have hall : ∀ s ∈ calls.map (fun c => Step.out c.1 c.2), s.isOut = true := by
    intro s hs
    obtain ⟨c, hc, rfl⟩ := List.mem_map.mp hs
    rfl
  have hrun := runSteps_all_out _ hall
  constructor
  · have hfun : (Step.line ∘ fun c : Channel × List Value => Step.out c.1 c.2)
        = fun c : Channel × List Value => channelTag c.1 ++ joinArgs c.2 := by
      funext c
      rfl
    simp [executeCode, composeResult, runSandbox, hrun, List.map_map, hfun]
  · simp [executeCode, composeResult, runSandbox, hrun]

/-- C5 witness: three sequential informational calls `Line 1`, `Line 2`,
`Line 3` yield output `Line 1\nLine 2\nLine 3`. -/
theorem c5_output_assembly_witness :
    (executeCode (.prog [Step.out .info [.str "Line 1"], Step.out .info [.str "Line 2"],
        Step.out .info [.str "Line 3"]]) []).output = "Line 1\nLine 2\nLine 3" := by
  have h := (c5_output_assembly [(Channel.info, [Value.str "Line 1"]),
    (Channel.info, [Value.str "Line 2"]), (Channel.info, [Value.str "Line 3"])] []).1
  exact h.trans (by decide)

/-- C6: value normalization: arguments of one call are each converted to
text and joined with a single space in order; `undefined` renders as
`undefined`, `null` as `null`, booleans as `true`/`false`, a plain
non-array object as the fixed literal `[object Object]`, an array as its
elements joined with `,` and no spaces (so `[1,2,3]` renders `1,2,3` and
`log("Count:", 42, "items")` produces the line `Count: 42 items`). -/
theorem c6_value_normalization (args es : List Value) (b : Bool) :
    (joinArgs args = joinSep " " (args.map normalizeValue))
    ∧ normalizeValue .undef = "undefined"
    ∧ normalizeValue .null = "null"
    ∧ normalizeValue (.bool b) = (if b then "true" else "false")
    ∧ normalizeValue .obj = "[object Object]"
    ∧ (normalizeValue (.arr es) = joinSep "," (es.map normalizeValue))
    ∧ normalizeValue (.arr [.num 1, .num 2, .num 3]) = "1,2,3"
    ∧ (executeCode (.prog [Step.out .info [.str "Count:", .num 42, .str "items"]]) []).output
        = "Count: 42 items" := by
  refine ⟨rfl, rfl, rfl, ?_, rfl, ?_, by decide, by decide⟩
  · cases b <;> rfl
  · simp [normalizeValue, normalizeList_eq_joinSep]

/-- C7: determinism across runs: a run's result never depends on the
capture buffer a previous run left in the host (fresh buffer and fresh
bindings each run), so running the same source and expectations twice, the
second starting from the state the first left behind, yields byte-identical
ExecutionResults, both equal to the pure `executeCode`. -/
theorem c7_run_determinism (h1 h2 : SandboxHost) (src : Source) (tcs : List TestCase) :
    ((executeCodeFrom h1 src tcs).1 = executeCode src tcs)
    ∧ ((executeCodeFrom h1 src tcs).1 = (executeCodeFrom h2 src tcs).1)
    ∧ ((executeCodeFrom (executeCodeFrom h1 src tcs).2 src tcs).1
        = (executeCodeFrom h1 src tcs).1) := by
  cases src with
  | parseFail msg => exact ⟨rfl, rfl, rfl⟩
  | prog steps =>
      refine ⟨?_, rfl, rfl⟩
      simp [executeCodeFrom, executeCode, runSandbox, composeResult, runCapture_eq]

theorem runner_invariant {s : RunnerState} (h : RunnerReachable s) :
    s.activeRuns = (if s.phase = Phase.running then 1 else 0) := by
  induction h with
  | init => rfl
  | step h e ih =>
      rename_i s
      cases e with
      | clickRun =>
          by_cases hp : s.phase = Phase.running
          · simp [stepRunner, hp, ih]
          · simp [stepRunner, hp] at ih ⊢
            omega
      | finish =>
          by_cases hp : s.phase = Phase.running
          · simp [stepRunner, hp] at ih ⊢
            omega
          · simp [stepRunner, hp, ih]
      | clickReset =>
          by_cases hp : s.phase = Phase.running
          · simp [stepRunner, hp, ih]
          · simp [stepRunner, hp] at ih ⊢
            exact ih

/-- C8: in every reachable orchestrator state, a run request while a run is
in progress is rejected (the state is unchanged and no new execution
starts), at most one execution is ever in progress, and while running
exactly one is — two executions are never interleaved. -/
theorem c8_reentrancy_guard (s : RunnerState) (h : RunnerReachable s) :
    (s.phase = Phase.running → stepRunner s .clickRun = s)
    ∧ s.activeRuns ≤ 1
    ∧ (s.phase = Phase.running → s.activeRuns = 1) := by
  have hinv := runner_invariant h
  refine ⟨?_, ?_, ?_⟩
  · intro hp
    simp [stepRunner, hp]
  · rw [hinv]
    split <;> omega
  · intro hp
    simp [hp] at hinv
    exact hinv

/-- C8 witness: from the reachable running state after one click, a second
click changes nothing, and at most one run is in progress. -/
theorem c8_reentrancy_guard_witness :
    (stepRunner (stepRunner runnerInit RunnerEvent.clickRun) RunnerEvent.clickRun
      = stepRunner runnerInit RunnerEvent.clickRun)
    ∧ (stepRunner runnerInit RunnerEvent.clickRun).activeRuns ≤ 1 := by
  have h := c8_reentrancy_guard (stepRunner runnerInit RunnerEvent.clickRun)
    (RunnerReachable.step RunnerReachable.init RunnerEvent.clickRun)
  exact ⟨h.1 (by decide), h.2.1⟩

/-! ## Tutor-context summary (useTutorContext.ts) -/

theorem string_eq_empty_of_length (s : String) (h : s.length = 0) : s = "" := by
  cases s with
  | mk data =>
      simp [String.length] at h
      simp [h]

theorem joinSep_cons_eq_append (sep x : String) (xs : List String) :
    ∃ t, joinSep sep (x :: xs) = x ++ t := by
  cases xs with
  | nil => exact ⟨"", by simp [joinSep]⟩
  | cons y ys => exact ⟨sep ++ joinSep sep (y :: ys), by simp [joinSep, String.append_assoc]⟩

theorem joinSep_ne_empty_of_head (sep x : String) (xs : List String) (hx : x ≠ "") :
    joinSep sep (x :: xs) ≠ "" := by
  obtain ⟨t, ht⟩ := joinSep_cons_eq_append sep x xs
  rw [ht]
  intro hcontra
  have hlen := congrArg String.length hcontra
  rw [String.length_append] at hlen
  have hx0 : x.length = 0 := by
    have h0 : ("" : String).length = 0 := rfl
    omega
  exact hx (string_eq_empty_of_length x hx0)

theorem failingEntry_ne_empty (t : TestResult) : failingEntry t ≠ "" := by
  intro h
  have hlen := congrArg String.length h
  have h12 : (": expected \"" : String).length = 12 := rfl
  have h9 : ("\", got \"" : String).length = 8 := rfl
  have h1 : ("\"" : String).length = 1 := rfl
  have h0 : ("" : String).length = 0 := rfl
  simp only [failingEntry, String.length_append, h12, h9, h1, h0] at hlen
  omega

/-- C9: for every result with a non-empty testResults list the tutor
context's summary is `P/T passed`, with `. Failing: ` and the per-entry
`name: expected "e", got "a"` fragments joined by `; ` appended exactly
when not all entries passed; with an empty testResults list (or no settled
result) the summary is null, not `0/0 passed`. -/
theorem c9_tutor_summary (r : ExecutionResult) (hne : r.testResults ≠ []) :
    (testResultsSummary (some r) =
      some (toString (r.testResults.filter (fun t => t.passed)).length ++ "/" ++
        toString r.testResults.length ++ " passed" ++
        (if ∀ t ∈ r.testResults, t.passed = true then ""
         else ". Failing: " ++
           joinSep "; " ((r.testResults.filter (fun t => !t.passed)).map failingEntry))))
    ∧ testResultsSummary none = none
    ∧ (∀ r2 : ExecutionResult, r2.testResults = [] → testResultsSummary (some r2) = none) := by
  refine ⟨?_, rfl, ?_⟩
  · have hpos : r.testResults.length > 0 := List.length_pos.mpr hne
    simp only [testResultsSummary, if_pos hpos, Option.some.injEq]
    by_cases hall : ∀ t ∈ r.testResults, t.passed = true
    · have hfil : r.testResults.filter (fun t => !t.passed) = [] := by
        refine List.filter_eq_nil_iff.mpr ?_
        intro t ht
        simp [hall t ht]
      rw [hfil]
      simp only [List.map_nil, joinSep, ne_eq, not_true_eq_false, if_false]
      rw [if_pos hall]
    · obtain ⟨t0, ht0, hpf⟩ := by
        push_neg at hall
        exact hall
      have hpf2 : t0.passed = false := by
        cases hp : t0.passed with
        | false => rfl
        | true => exact absurd hp hpf
      have hmem : t0 ∈ r.testResults.filter (fun t => !t.passed) :=
        List.mem_filter.mpr ⟨ht0, by simp [hpf2]⟩
      have hnenil : r.testResults.filter (fun t => !t.passed) ≠ [] :=
        List.ne_nil_of_mem hmem
      rcases hfil : r.testResults.filter (fun t => !t.passed) with _ | ⟨x, xs⟩
      · exact absurd hfil hnenil
      · rw [hfil]
        have hjoin : joinSep "; " ((x :: xs).map failingEntry) ≠ "" := by
          rw [List.map_cons]
          exact joinSep_ne_empty_of_head "; " (failingEntry x) (xs.map failingEntry)
            (failingEntry_ne_empty x)
        rw [if_pos hjoin, if_neg hall]
  · intro r2 h2
    simp [testResultsSummary, h2]

/-- C9 witness: one passing and one failing entry give `1/2 passed` with
the failing suffix; a missing result summarizes to null. -/
theorem c9_tutor_summary_witness :
    testResultsSummary (some
      { output := "Hello"
        error := none
        testResults := [{ name := "t1", passed := true, expected := "Hello", actual := "Hello" },
          { name := "t2", passed := false, expected := "x", actual := "Hello" }]
        allPassed := false })
      = some "1/2 passed. Failing: t2: expected \"x\", got \"Hello\""
    ∧ testResultsSummary none = none := by
  have h := c9_tutor_summary
    { output := "Hello"
      error := none
      testResults := [{ name := "t1", passed := true, expected := "Hello", actual := "Hello" },
        { name := "t2", passed := false, expected := "x", actual := "Hello" }]
      allPassed := false } (by decide)
  exact ⟨h.1.trans (by decide), h.2.1⟩

theorem attempt_invariant {s : AttemptState} (h : AttemptReachable s) :
    s.shouldPromptHelp = true → 3 ≤ s.consecutiveFailures := by
  induction h with
  | init => intro hf; simp [attemptInitialState] at hf
  | step h e ih =>
      cases e with
      | record code result =>
          intro hf
          simp only [stepAttempt, recordAttempt, Bool.and_eq_true, decide_eq_true_eq,
            FAILURE_THRESHOLD] at hf ⊢
          exact hf.1
      | dismiss => intro hf; simp [stepAttempt, dismissPrompt] at hf
      | incHint =>
          intro hf
          simp only [stepAttempt, incrementHintLevel] at hf ⊢
          exact ih hf
      | reset => intro hf; simp [stepAttempt, resetAttempts, attemptInitialState] at hf

/-- C10: in every reachable state of the hook, a raised help prompt implies
at least 3 consecutive failures; recording a passing attempt resets the
consecutive-failure count to zero and cannot raise the prompt; and every
recorded attempt increments the attempt count by exactly one. -/
theorem c10_attempt_tracking (s : AttemptState) (h : AttemptReachable s) :
    (s.shouldPromptHelp = true → 3 ≤ s.consecutiveFailures)
    ∧ (∀ code result, result.allPassed = true →
        (stepAttempt s (.record code result)).consecutiveFailures = 0
        ∧ (stepAttempt s (.record code result)).shouldPromptHelp = false)
    ∧ (∀ code result,
        (stepAttempt s (.record code result)).attemptCount = s.attemptCount + 1) := by
  refine ⟨attempt_invariant h, ?_, ?_⟩
  · intro code result hok
    constructor
    · simp [stepAttempt, recordAttempt, hok]
    · simp [stepAttempt, recordAttempt, hok, FAILURE_THRESHOLD]
  · intro code result
    rfl

/-- C10 witness: from the initial state, recording a passing attempt gives
zero consecutive failures, no prompt, and attempt count one. -/
theorem c10_attempt_tracking_witness :
    ((stepAttempt attemptInitialState (.record "code"
        { output := "", error := none, testResults := [], allPassed := true })).consecutiveFailures = 0
      ∧ (stepAttempt attemptInitialState (.record "code"
        { output := "", error := none, testResults := [], allPassed := true })).shouldPromptHelp = false)
    ∧ (stepAttempt attemptInitialState (.record "code"
        { output := "", error := none, testResults := [], allPassed := true })).attemptCount
      = attemptInitialState.attemptCount + 1 := by
  have h := c10_attempt_tracking attemptInitialState AttemptReachable.init
  exact ⟨h.2.1 "code" { output := "", error := none, testResults := [], allPassed := true } rfl,
    h.2.2 "code" { output := "", error := none, testResults := [], allPassed := true }⟩
